import Mathlib

/-!
Verification of the strip-level controller of pyHS100 (smartstrip.py):
a multi-outlet power strip controller that owns one outlet controller per
physical outlet and reduces per-outlet answers into strip-level answers.

Modelling choices:
* A Python dict is an insertion-ordered association list `List (k × v)`
  with unique keys; `dget` is lookup, `dset` is assignment (update in
  place when the key exists, append otherwise), `dgetD` is the
  defaultdict read with default `0`.
* Energy values (Python floats) are modelled as rationals.
* Per-outlet calls are I/O against the device; an operation is embedded
  as a function of the list of per-outlet answers, and where call order
  or early exit matters, the embedding also returns the trace of outlet
  indices actually called.
* Iterating a Python dict yields its keys, not its key/value pairs;
  `get_emeter_monthly` in the source iterates the per-outlet dict
  directly and unpacks each element as a pair, which raises a TypeError
  on the integer keys.  The embedding returns `Except String` to carry
  that failure.
-/

namespace PyHS100

/-- Lookup in a Python-dict association list: first binding of the key. -/
def dget {α β : Type} [DecidableEq α] : List (α × β) → α → Option β
  | [], _ => none
  | (k0, v0) :: rest, k => if k0 = k then some v0 else dget rest k

/-- Python dict assignment `m[k] = v`: update in place when the key is
present, append the new binding otherwise. -/
def dset {α β : Type} [DecidableEq α] : List (α × β) → α → β → List (α × β)
  | [], k, v => [(k, v)]
  | (k0, v0) :: rest, k, v =>
    if k0 = k then (k, v) :: rest else (k0, v0) :: dset rest k v

/-- Read from a `defaultdict(lambda: 0.0)`: the stored value, or `0`. -/
def dgetD {α : Type} [DecidableEq α] (m : List (α × ℚ)) (k : α) : ℚ :=
  (dget m k).getD 0

/-- A per-outlet energy history map: period key (day of month or month
number) to accumulated usage value. -/
def DMap : Type := List (Nat × ℚ)

/-- A child descriptor from the inventory response; it carries the
outlet identifier used as routing context. -/
structure Child where
  id : String
deriving DecidableEq, Repr

/-- An outlet controller as the strip sees it: a handle bound to the
routing context taken from one child descriptor. -/
structure PlugCtl where
  context : String
deriving DecidableEq, Repr

/-- SmartStrip.__init__, the part that builds the outlet collection:
reads the children list once, then for each index in range appends one
outlet controller bound to that child descriptor identifier. -/
def mkStrip (children : List Child) : List PlugCtl :=
  (List.range children.length).map fun i => ⟨(children.getD i ⟨""⟩).id⟩

/-- A protocol command as issued by the query helper.  `context = none`
means the whole-device endpoint; `context = some c` is an outlet-scoped
command routed by the outlet identifier `c`. -/
structure Command where
  context : Option String
  target : String
  cmd : String
  arg : Int
deriving DecidableEq, Repr

/-- SmartStrip.turn_on: the single whole-device relay-state command it
issues. -/
def turn_on : List Command :=
  [⟨none, "system", "set_relay_state", 1⟩]

/-- SmartStrip.turn_off: the single whole-device relay-state command it
issues. -/
def turn_off : List Command :=
  [⟨none, "system", "set_relay_state", 0⟩]

/-- SmartStrip.is_on, with the trace of outlet indices called.  Each
per-outlet `is_on` call either fails or answers a Bool.  The loop walks
outlets in discovery order, returns `true` at the first outlet that
reports on, propagates the first failure, and returns `false` after the
last outlet otherwise.  `i` is the index of the next outlet. -/
def isOnRun (i : Nat) : List (Except Unit Bool) → List Nat × Except Unit Bool
  | [] => ([], Except.ok false)
  | r :: rest =>
    match r with
    | Except.error e => ([i], Except.error e)
    | Except.ok true => ([i], Except.ok true)
    | Except.ok false =>
      let p := isOnRun (i + 1) rest
      (i :: p.1, p.2)

/-- SmartStrip.is_on on the list of per-outlet answers, starting from
outlet 0. -/
def strip_is_on (resps : List (Except Unit Bool)) : List Nat × Except Unit Bool :=
  isOnRun 0 resps

/-- SmartStrip.get_on_since: `max` over the list of all per-outlet
on-since timestamps; Python `max` raises on an empty list, modelled as
`none`. -/
def get_on_since (ts : List ℤ) : Option ℤ :=
  match ts with
  | [] => none
  | t :: rest => some (rest.foldl max t)

/-- SmartStrip.current_consumption: Python `sum` over the list of all
per-outlet consumption values, i.e. a left fold of addition from 0. -/
def current_consumption (cs : List ℚ) : ℚ :=
  cs.foldl (· + ·) 0

/-- One iteration of the inner loop of SmartStrip.get_emeter_daily:
`emeter_daily[day] += value` on the defaultdict accumulator. -/
def dailyStep (acc : DMap) (kv : Nat × ℚ) : DMap :=
  dset acc kv.1 (dgetD acc kv.1 + kv.2)

/-- The inner loop of SmartStrip.get_emeter_daily: fold one per-outlet
daily map into the accumulator, iterating its items in order. -/
def addMap (acc : DMap) (m : DMap) : DMap :=
  m.foldl dailyStep acc

/-- SmartStrip.get_emeter_daily as a function of the per-outlet daily
history maps: start from an empty defaultdict and fold in each outlet
map in discovery order. -/
def get_emeter_daily (plugs : List DMap) : DMap :=
  plugs.foldl addMap []

/-- Python tuple unpacking `month, value = key` applied to an element
obtained by iterating a dict: the element is the integer key, which is
not iterable, so unpacking raises a TypeError. -/
def unpackKey (_k : Nat) : Except String (Nat × ℚ) :=
  Except.error "TypeError: cannot unpack non-iterable int object"

/-- SmartStrip.get_emeter_monthly as written in the source: for each
outlet, iterate the per-outlet monthly dict itself (yielding keys, not
items), unpack each element as a month/value pair, and accumulate.  The
unpacking fails on the first key of the first nonempty map. -/
def get_emeter_monthly (plugs : List DMap) : Except String DMap :=
  plugs.foldlM
    (fun acc m =>
      m.foldlM
        (fun a kv => do
          let mv ← unpackKey kv.1
          pure (dset a mv.1 (dgetD a mv.1 + mv.2)))
        acc)
    ([] : DMap)

/-- What one run of SmartStrip.erase_emeter_stats did: which outlet
indices were called, which were successfully erased, and whether the
whole operation succeeded. -/
structure EraseRun where
  called : List Nat
  erased : List Nat
  ok : Bool
deriving DecidableEq, Repr

/-- SmartStrip.erase_emeter_stats with the trace: walk outlets in
discovery order, one erase call each; a failing call aborts the loop,
leaving later outlets uncalled.  `outcomes` lists each per-outlet call
result (`true` = erase succeeded), `i` is the index of the next
outlet. -/
def eraseRun (i : Nat) : List Bool → EraseRun
  | [] => ⟨[], [], true⟩
  | outc :: rest =>
    if outc then
      let r := eraseRun (i + 1) rest
      ⟨i :: r.called, i :: r.erased, r.ok⟩
    else
      ⟨[i], [], false⟩

/-- SmartStrip.erase_emeter_stats on the list of per-outlet call
outcomes, starting from outlet 0. -/
def erase_emeter_stats (outcomes : List Bool) : EraseRun :=
  eraseRun 0 outcomes

/-- A value stored in the state-information presentation map: the
device-level LED indicator or an on-since timestamp. -/
inductive StateVal : Type
  | led (b : Bool)
  | since (t : ℤ)
deriving DecidableEq, Repr

/-- What state_information reads from one outlet: its string
representation, its is_on answer, its on-since timestamp. -/
structure PlugState where
  name : String
  is_on : Bool
  on_since : ℤ
deriving DecidableEq, Repr

/-- The presentation-map key for one outlet, Python
`"Plug %s on since" % str(plug)`. -/
def sinceKey (p : PlugState) : String :=
  "Plug " ++ p.name ++ " on since"

/-- One iteration of the state_information loop: if the outlet reports
on, add its on-since entry to the presentation dict, else leave the
dict unchanged. -/
def stateStep (st : List (String × StateVal)) (p : PlugState) :
    List (String × StateVal) :=
  if p.is_on then dset st (sinceKey p) (StateVal.since p.on_since) else st

/-- SmartStrip.state_information: start from the dict holding the LED
entry, then for each outlet in discovery order, if it reports on, add
its on-since entry keyed by its string representation. -/
def state_information (led : Bool) (plugs : List PlugState) :
    List (String × StateVal) :=
  plugs.foldl stateStep [("LED state", StateVal.led led)]

/-- The sum of the values a map associates to key `k`, counting every
binding (used to specify the fold before keys are known unique). -/
def keySum (m : DMap) (k : Nat) : ℚ :=
  (m.map fun kv => if kv.1 = k then kv.2 else 0).sum

/-- A map is dict-like when its keys are pairwise distinct, as the keys
of a Python dict always are. -/
def NodupKeys (m : DMap) : Prop :=
  (m.map Prod.fst).Nodup

instance : DecidableEq DMap := by
  unfold DMap
  infer_instance

instance (m : DMap) : Decidable (NodupKeys m) := by
  unfold NodupKeys
  infer_instance

/-! ### Basic dict lemmas -/

theorem dget_dset_self {α β : Type} [DecidableEq α] (m : List (α × β)) (k : α) (v : β) :
    dget (dset m k v) k = some v := by
  induction m with
  | nil => simp [dget, dset]
  | cons hd tl ih =>
    obtain ⟨k0, v0⟩ := hd
    by_cases h : k0 = k
    · simp [dget, dset, h]
    · simp [dget, dset, h, ih]

theorem dget_dset_ne {α β : Type} [DecidableEq α] (m : List (α × β)) (k k' : α) (v : β)
    (h : k' ≠ k) : dget (dset m k v) k' = dget m k' := by
  induction m with
  | nil =>
    have hne : ¬k = k' := fun hh => h hh.symm
    simp [dget, dset, hne]
  | cons hd tl ih =>
    obtain ⟨k0, v0⟩ := hd
    by_cases hk : k0 = k
    · subst hk
      have hne : ¬k0 = k' := fun hh => h hh.symm
      simp [dget, dset, hne]
    · by_cases hk' : k0 = k'
      · subst hk'
        simp [dget, dset, hk, h]
      · simp [dget, dset, hk, hk', ih]

theorem dget_not_mem {α β : Type} [DecidableEq α] (m : List (α × β)) (k : α)
    (h : k ∉ m.map Prod.fst) : dget m k = none := by
  induction m with
  | nil => simp [dget]
  | cons hd tl ih =>
    obtain ⟨k0, v0⟩ := hd
    simp only [List.map_cons, List.mem_cons] at h
    push_neg at h
    have hne : ¬k0 = k := fun hh => h.1 hh.symm
    simp [dget, hne, ih h.2]

theorem dset_eq_append {α β : Type} [DecidableEq α] (m : List (α × β)) (k : α) (v : β)
    (h : k ∉ m.map Prod.fst) : dset m k v = m ++ [(k, v)] := by
  induction m with
  | nil => simp [dset]
  | cons hd tl ih =>
    obtain ⟨k0, v0⟩ := hd
    simp only [List.map_cons, List.mem_cons] at h
    push_neg at h
    have hne : ¬k0 = k := fun hh => h.1 hh.symm
    simp [dset, hne, ih h.2]

/-! ### is_on -/

theorem isOnRun_map_ok (bs : List Bool) (i : Nat) :
    (isOnRun i (bs.map Except.ok)).2 = Except.ok (bs.any id) := by
  induction bs generalizing i with
  | nil => simp [isOnRun]
  | cons b rest ih =>
    cases b with
    | true => simp [isOnRun]
    | false => simp [isOnRun, ih]

/-- C2: for every strip with N >= 0 outlets, is_on returns true iff at
least one outlet reports on; with zero outlets it returns false. -/
theorem C2_is_on_iff_any_on :
    (∀ bs : List Bool, (strip_is_on (bs.map Except.ok)).2 = Except.ok (bs.any id))
    ∧ (∀ bs : List Bool,
        ((strip_is_on (bs.map Except.ok)).2 = Except.ok true ↔ ∃ b ∈ bs, b = true))
    ∧ (strip_is_on []).2 = Except.ok false := by
  refine ⟨fun bs => isOnRun_map_ok bs 0, fun bs => ?_, rfl⟩
  rw [strip_is_on, isOnRun_map_ok]
  simp [List.any_eq_true]

/-! ### current_consumption -/

theorem foldl_add_eq (cs : List ℚ) (a : ℚ) : cs.foldl (· + ·) a = a + cs.sum := by
  induction cs generalizing a with
  | nil => simp
  | cons c rest ih => simp [ih, add_assoc]

/-- C3: current_consumption equals the exact arithmetic sum of each
consumption values of the outlets, independently of the order of the
per-outlet calls; with zero outlets the result is 0. -/
theorem C3_current_consumption_sum :
    (∀ cs : List ℚ, current_consumption cs = cs.sum)
    ∧ (∀ cs cs' : List ℚ, cs.Perm cs' →
        current_consumption cs = current_consumption cs')
    ∧ current_consumption [] = 0 := by
  refine ⟨fun cs => ?_, fun cs cs' h => ?_, rfl⟩
  · rw [current_consumption, foldl_add_eq, zero_add]
  · rw [current_consumption, current_consumption, foldl_add_eq, foldl_add_eq, h.sum_eq]

theorem C3_current_consumption_sum_witness :
    current_consumption [(1 : ℚ), 2, 3] = current_consumption [3, 2, 1] :=
  C3_current_consumption_sum.2.1 [1, 2, 3] [3, 2, 1] (by decide)

/-! ### get_on_since -/

theorem foldl_max_mem (rest : List ℤ) (t : ℤ) : rest.foldl max t ∈ t :: rest := by
  induction rest generalizing t with
  | nil => simp
  | cons r rest ih =>
    have h := ih (max t r)
    rw [List.foldl_cons]
    rcases List.mem_cons.mp h with h | h
    · rcases max_choice t r with hm | hm
      · rw [h, hm]
        exact List.mem_cons_self _ _
      · rw [h, hm]
        exact List.mem_cons.mpr (Or.inr (List.mem_cons_self _ _))
    · exact List.mem_cons.mpr (Or.inr (List.mem_cons.mpr (Or.inr h)))

theorem le_foldl_max (rest : List ℤ) (t : ℤ) :
    ∀ x ∈ t :: rest, x ≤ rest.foldl max t := by
  induction rest generalizing t with
  | nil => simp
  | cons r rest ih =>
    intro x hx
    rcases List.mem_cons.mp hx with hx | hx
    · subst hx
      calc x ≤ max x r := le_max_left x r
        _ ≤ rest.foldl max (max x r) := ih (max x r) _ (List.mem_cons_self _ _)
    · rcases List.mem_cons.mp hx with hx | hx
      · subst hx
        calc x ≤ max t x := le_max_right t x
          _ ≤ rest.foldl max (max t x) := ih (max t x) _ (List.mem_cons_self _ _)
      · exact ih (max t r) x (List.mem_cons.mpr (Or.inr hx))

/-- C4: for N >= 1 outlets, get_on_since returns the maximum of all
on-since timestamps of the outlets; with N = 0 the underlying `max` fails on
the empty list rather than returning a value. -/
theorem C4_get_on_since_max :
    (∀ ts : List ℤ, ts ≠ [] →
      ∃ m, get_on_since ts = some m ∧ m ∈ ts ∧ ∀ x ∈ ts, x ≤ m)
    ∧ get_on_since [] = none := by
  refine ⟨fun ts h => ?_, rfl⟩
  match ts, h with
  | t :: rest, _ =>
    exact ⟨rest.foldl max t, rfl, foldl_max_mem rest t, le_foldl_max rest t⟩

theorem C4_get_on_since_max_witness :
    ∃ m, get_on_since [(3 : ℤ), 1, 2] = some m ∧ m ∈ [(3 : ℤ), 1, 2]
      ∧ ∀ x ∈ [(3 : ℤ), 1, 2], x ≤ m :=
  C4_get_on_since_max.1 [3, 1, 2] (by decide)

/-! ### turn_on / turn_off -/

/-- C6: turn_on and turn_off each issue exactly one relay-state command,
addressed to the whole-device endpoint (no routing context), and no
outlet-scoped command at all. -/
theorem C6_broadcast_single_command :
    turn_on.length = 1 ∧ turn_off.length = 1
    ∧ turn_on.map Command.context = [none]
    ∧ turn_off.map Command.context = [none]
    ∧ turn_on.map Command.cmd = ["set_relay_state"]
    ∧ turn_off.map Command.cmd = ["set_relay_state"] :=
  ⟨rfl, rfl, rfl, rfl, rfl, rfl⟩

/-! ### Daily energy aggregation -/

theorem dgetD_dset_self (m : DMap) (k : Nat) (v : ℚ) :
    dgetD (dset m k v) k = v := by
  rw [dgetD, dget_dset_self]
  rfl

theorem dgetD_dset_ne (m : DMap) (k k' : Nat) (v : ℚ) (h : k' ≠ k) :
    dgetD (dset m k v) k' = dgetD m k' := by
  rw [dgetD, dget_dset_ne m k k' v h]
  rfl

theorem addMap_dgetD (m acc : DMap) (k : Nat) :
    dgetD (addMap acc m) k = dgetD acc k + keySum m k := by
  induction m generalizing acc with
  | nil => simp [addMap, keySum]
  | cons kv rest ih =>
    obtain ⟨k0, v0⟩ := kv
    show dgetD (addMap (dailyStep acc (k0, v0)) rest) k = _
    rw [ih]
    by_cases hk : k0 = k
    · subst hk
      rw [dailyStep, dgetD_dset_self]
      simp [keySum]
      ring
    · rw [dailyStep]
      rw [dgetD_dset_ne _ _ _ _ (fun hh => hk hh.symm)]
      simp [keySum, hk]

theorem keySum_eq_zero_of_not_mem (m : DMap) (k : Nat)
    (h : k ∉ m.map Prod.fst) : keySum m k = 0 := by
  induction m with
  | nil => simp [keySum]
  | cons kv rest ih =>
    obtain ⟨k0, v0⟩ := kv
    simp only [List.map_cons, List.mem_cons] at h
    push_neg at h
    have hne : ¬k0 = k := fun hh => h.1 hh.symm
    simp [keySum, hne]
    simpa [keySum] using ih h.2

theorem keySum_eq_dgetD (m : DMap) (k : Nat) (h : NodupKeys m) :
    keySum m k = dgetD m k := by
  induction m with
  | nil => simp [keySum, dgetD, dget]
  | cons kv rest ih =>
    obtain ⟨k0, v0⟩ := kv
    rw [NodupKeys, List.map_cons, List.nodup_cons] at h
    by_cases hk : k0 = k
    · subst hk
      have hz : keySum rest k0 = 0 := keySum_eq_zero_of_not_mem rest k0 h.1
      simp [keySum, dgetD, dget, hz]
      simpa [keySum] using hz
    · have : keySum rest k = dgetD rest k := ih h.2
      simp [keySum, dgetD, dget, hk]
      simpa [keySum, dgetD] using this

theorem foldl_addMap_dgetD (plugs : List DMap) (acc : DMap) (k : Nat)
    (h : ∀ m ∈ plugs, NodupKeys m) :
    dgetD (plugs.foldl addMap acc) k
      = dgetD acc k + (plugs.map fun m => dgetD m k).sum := by
  induction plugs generalizing acc with
  | nil => simp
  | cons m rest ih =>
    rw [List.foldl_cons]
    rw [ih _ (fun m' hm' => h m' (List.mem_cons.mpr (Or.inr hm')))]
    rw [addMap_dgetD, keySum_eq_dgetD m k (h m (List.mem_cons_self _ _))]
    simp [add_assoc]

theorem dgetD_nil (k : Nat) : dgetD ([] : DMap) k = 0 := rfl

/-- C5: daily energy aggregation is key-wise additive and
order-independent: at every key, the result of get_emeter_daily is the
sum over all outlets of the value of that outlet at the key (0 when absent),
and permuting the outlets does not change the result map. -/
theorem C5_daily_keywise_additive (plugs plugs' : List DMap) (k : Nat)
    (h : ∀ m ∈ plugs, NodupKeys m) (hp : plugs.Perm plugs') :
    dgetD (get_emeter_daily plugs) k = (plugs.map fun m => dgetD m k).sum
    ∧ dgetD (get_emeter_daily plugs) k = dgetD (get_emeter_daily plugs') k := by
  have h' : ∀ m ∈ plugs', NodupKeys m := fun m hm => h m (hp.mem_iff.mpr hm)
  have e1 : dgetD (get_emeter_daily plugs) k = (plugs.map fun m => dgetD m k).sum := by
    rw [get_emeter_daily, foldl_addMap_dgetD plugs [] k h, dgetD_nil, zero_add]
  have e2 : dgetD (get_emeter_daily plugs') k = (plugs'.map fun m => dgetD m k).sum := by
    rw [get_emeter_daily, foldl_addMap_dgetD plugs' [] k h', dgetD_nil, zero_add]
  exact ⟨e1, by rw [e1, e2, (hp.map fun m => dgetD m k).sum_eq]⟩

theorem C5_daily_keywise_additive_witness :
    dgetD (get_emeter_daily [[(1, 2), (3, 1)], [(1, 1), (2, 4)]]) 1
      = (([[(1, 2), (3, 1)], [(1, 1), (2, 4)]] : List DMap).map fun m => dgetD m 1).sum
    ∧ dgetD (get_emeter_daily [[(1, 2), (3, 1)], [(1, 1), (2, 4)]]) 1
      = dgetD (get_emeter_daily [[(1, 1), (2, 4)], [(1, 2), (3, 1)]]) 1 :=
  C5_daily_keywise_additive [[(1, 2), (3, 1)], [(1, 1), (2, 4)]]
    [[(1, 1), (2, 4)], [(1, 2), (3, 1)]] 1 (by decide)
    (List.Perm.swap [(1, 1), (2, 4)] [(1, 2), (3, 1)] [])

/-! ### Monthly energy aggregation: the dict-iteration defect -/

/-- C1: the source of get_emeter_monthly iterates each per-outlet dict
directly instead of over its items, so the month/value unpacking is
applied to the integer keys and raises a TypeError as soon as any
outlet has a nonempty monthly map; the key-wise sum the claim states is
never produced.  Here a strip of one outlet with monthly map mapping
month 1 to 2 fails instead of returning that map. -/
theorem C1_monthly_raises_type_error :
    get_emeter_monthly [[(1, (2 : ℚ))]]
      = Except.error "TypeError: cannot unpack non-iterable int object" := rfl

/-! ### erase_emeter_stats -/

theorem eraseRun_all_true (outcomes : List Bool) (i : Nat)
    (h : ∀ b ∈ outcomes, b = true) :
    eraseRun i outcomes
      = ⟨List.range' i outcomes.length, List.range' i outcomes.length, true⟩ := by
  induction outcomes generalizing i with
  | nil => rfl
  | cons b rest ih =>
    have hb : b = true := h b (List.mem_cons_self _ _)
    subst hb
    rw [List.length_cons, List.range'_succ]
    show (if true then _ else _) = _
    rw [if_pos rfl, ih (i + 1) (fun b hb => h b (List.mem_cons.mpr (Or.inr hb)))]

theorem eraseRun_first_false (pre post : List Bool) (i : Nat)
    (h : ∀ b ∈ pre, b = true) :
    eraseRun i (pre ++ false :: post)
      = ⟨List.range' i (pre.length + 1), List.range' i pre.length, false⟩ := by
  induction pre generalizing i with
  | nil =>
    show (if false then _ else _) = _
    rw [if_neg (by simp)]
    simp [List.range'_succ]
  | cons b rest ih =>
    have hb : b = true := h b (List.mem_cons_self _ _)
    subst hb
    rw [List.cons_append]
    show (if true then _ else _) = _
    rw [if_pos rfl, ih (i + 1) (fun b hb => h b (List.mem_cons.mpr (Or.inr hb)))]
    simp [List.range'_succ]

/-- C7: erase_emeter_stats issues exactly one erase call per outlet in
discovery order when every call succeeds, and when the call for outlet
k is the first to fail, outlets 0..k-1 have been erased, outlet k was
called but not erased, and no outlet after k is called (no rollback,
the failure aborts the remainder). -/
theorem C7_erase_one_call_per_outlet (pre post : List Bool)
    (h : ∀ b ∈ pre, b = true) :
    erase_emeter_stats pre
      = ⟨List.range pre.length, List.range pre.length, true⟩
    ∧ erase_emeter_stats (pre ++ false :: post)
      = ⟨List.range (pre.length + 1), List.range pre.length, false⟩ := by
  rw [List.range_eq_range', List.range_eq_range', erase_emeter_stats,
    erase_emeter_stats]
  exact ⟨eraseRun_all_true pre 0 h, eraseRun_first_false pre post 0 h⟩

theorem C7_erase_one_call_per_outlet_witness :
    erase_emeter_stats [true, true]
      = ⟨List.range 2, List.range 2, true⟩
    ∧ erase_emeter_stats ([true, true] ++ false :: [true])
      = ⟨List.range 3, List.range 2, false⟩ :=
  C7_erase_one_call_per_outlet [true, true] [true] (by decide)

/-! ### Construction -/

theorem range_map_getD {α : Type} (l : List α) (d : α) :
    (List.range l.length).map (fun i => l.getD i d) = l := by
  induction l with
  | nil => rfl
  | cons a tl ih =>
    rw [List.length_cons, List.range_succ_eq_map, List.map_cons, List.map_map]
    have hc : ((fun i => (a :: tl).getD i d) ∘ Nat.succ) = fun i => tl.getD i d := by
      funext i
      rfl
    rw [List.getD_cons_zero, hc, ih]

/-- C8: construction over an inventory response with N child
descriptors yields exactly N outlet controllers, one per descriptor, in
inventory order, each bound to the identifier of that descriptor; the outlet
list is an immutable value, so no later operation changes it. -/
theorem C8_construction_one_plug_per_child (children : List Child) :
    mkStrip children = children.map (fun c => PlugCtl.mk c.id)
    ∧ (mkStrip children).length = children.length := by
  have e : mkStrip children = children.map (fun c => PlugCtl.mk c.id) := by
    rw [mkStrip]
    have hc : (fun i => (⟨(children.getD i ⟨""⟩).id⟩ : PlugCtl))
        = (fun c => PlugCtl.mk c.id) ∘ (fun i => children.getD i (⟨""⟩ : Child)) := rfl
    rw [hc, ← List.map_map, range_map_getD]
  exact ⟨e, by rw [e, List.length_map]⟩

/-! ### state_information -/

theorem foldl_stateStep (plugs : List PlugState) (st : List (String × StateVal))
    (h : (st.map Prod.fst
          ++ (plugs.filter fun p => p.is_on).map sinceKey).Nodup) :
    plugs.foldl stateStep st
      = st ++ (plugs.filter fun p => p.is_on).map
          (fun p => (sinceKey p, StateVal.since p.on_since)) := by
  induction plugs generalizing st with
  | nil => simp
  | cons p rest ih =>
    rw [List.foldl_cons]
    by_cases hon : p.is_on
    · have hfil : (p :: rest).filter (fun p => p.is_on)
          = p :: rest.filter (fun p => p.is_on) := by
        simp [List.filter_cons, hon]
      rw [hfil] at h
      rw [List.map_cons] at h
      have hkey : sinceKey p ∉ st.map Prod.fst := by
        rw [List.nodup_append] at h
        intro hmem
        exact h.2.2 hmem (List.mem_cons_self _ _)
      have hstep : stateStep st p = st ++ [(sinceKey p, StateVal.since p.on_since)] := by
        rw [stateStep, if_pos hon, dset_eq_append st _ _ hkey]
      rw [hstep]
      have h' : ((st ++ [(sinceKey p, StateVal.since p.on_since)]).map Prod.fst
          ++ (rest.filter fun p => p.is_on).map sinceKey).Nodup := by
        rw [List.map_append]
        rw [List.append_assoc]
        simpa using h
      rw [ih _ h', hfil, List.map_cons, List.append_assoc]
      rfl
    · have hfil : (p :: rest).filter (fun p => p.is_on)
          = rest.filter (fun p => p.is_on) := by
        simp [List.filter_cons, hon]
      rw [hfil] at h
      have hstep : stateStep st p = st := by rw [stateStep, if_neg hon]
      rw [hstep, ih _ h, hfil]

/-- C9: state_information returns the device-level LED entry followed
by exactly one on-since entry for every outlet that reports on, keyed
by the string representation of the outlet and valued by its on-since
timestamp, in discovery order; outlets that report off contribute no
entry. -/
theorem C9_state_information_entries (led : Bool) (plugs : List PlugState)
    (h : ("LED state" :: (plugs.filter fun p => p.is_on).map sinceKey).Nodup) :
    state_information led plugs
      = ("LED state", StateVal.led led)
        :: (plugs.filter fun p => p.is_on).map
            (fun p => (sinceKey p, StateVal.since p.on_since)) := by
  rw [state_information, foldl_stateStep plugs _ (by simpa using h)]
  rfl

theorem C9_state_information_entries_witness :
    state_information true
        [⟨"A", true, 5⟩, ⟨"B", false, 3⟩, ⟨"C", true, 7⟩]
      = ("LED state", StateVal.led true)
        :: (([⟨"A", true, 5⟩, ⟨"B", false, 3⟩, ⟨"C", true, 7⟩] :
              List PlugState).filter fun p => p.is_on).map
            (fun p => (sinceKey p, StateVal.since p.on_since)) :=
  C9_state_information_entries true
    [⟨"A", true, 5⟩, ⟨"B", false, 3⟩, ⟨"C", true, 7⟩] (by decide)

/-! ### is_on short-circuit -/

theorem isOnRun_all_off (resps : List (Except Unit Bool)) (i : Nat)
    (h : ∀ r ∈ resps, r = Except.ok false) :
    isOnRun i resps = (List.range' i resps.length, Except.ok false) := by
  induction resps generalizing i with
  | nil => rfl
  | cons r rest ih =>
    have hr : r = Except.ok false := h r (List.mem_cons_self _ _)
    subst hr
    rw [List.length_cons, List.range'_succ]
    show (i :: (isOnRun (i + 1) rest).1, (isOnRun (i + 1) rest).2) = _
    rw [ih (i + 1) (fun r hr => h r (List.mem_cons.mpr (Or.inr hr)))]

theorem isOnRun_first_on (pre post : List (Except Unit Bool)) (i : Nat)
    (h : ∀ r ∈ pre, r = Except.ok false) :
    isOnRun i (pre ++ Except.ok true :: post)
      = (List.range' i (pre.length + 1), Except.ok true) := by
  induction pre generalizing i with
  | nil => simp [isOnRun, List.range'_succ]
  | cons r rest ih =>
    have hr : r = Except.ok false := h r (List.mem_cons_self _ _)
    subst hr
    rw [List.cons_append]
    show (i :: (isOnRun (i + 1) (rest ++ Except.ok true :: post)).1,
      (isOnRun (i + 1) (rest ++ Except.ok true :: post)).2) = _
    rw [ih (i + 1) (fun r hr => h r (List.mem_cons.mpr (Or.inr hr)))]
    simp [List.range'_succ]

/-- C10: is_on walks outlets in discovery order and stops at the first
outlet that reports on: when outlets 0..k-1 report off and outlet k
reports on, exactly outlets 0..k are called and the result is true
whatever the later outlets would answer (even a failure); when every
outlet reports off, all N outlets are called and the result is
false. -/
theorem C10_is_on_short_circuit
    (pre post allOff : List (Except Unit Bool))
    (h : ∀ r ∈ pre, r = Except.ok false)
    (h2 : ∀ r ∈ allOff, r = Except.ok false) :
    strip_is_on (pre ++ Except.ok true :: post)
      = (List.range (pre.length + 1), Except.ok true)
    ∧ strip_is_on allOff = (List.range allOff.length, Except.ok false) := by
  rw [List.range_eq_range', List.range_eq_range', strip_is_on, strip_is_on]
  exact ⟨isOnRun_first_on pre post 0 h, isOnRun_all_off allOff 0 h2⟩

theorem C10_is_on_short_circuit_witness :
    strip_is_on ([Except.ok false] ++ Except.ok true :: [Except.error (), Except.ok false])
      = (List.range 2, Except.ok true)
    ∧ strip_is_on [Except.ok false, Except.ok false]
      = (List.range 2, Except.ok false) :=
  C10_is_on_short_circuit [Except.ok false] [Except.error (), Except.ok false]
    [Except.ok false, Except.ok false]
    (by intro r hr; rw [List.mem_singleton] at hr; exact hr)
    (by
      intro r hr
      rcases List.mem_cons.mp hr with hr | hr
      · exact hr
      · rw [List.mem_singleton] at hr
        exact hr)

end PyHS100
